import Mathlib

/-!
A shallow embedding of `cli/src/react/create.ts` (figmagit/code-connect):
the React Code Connect file generator.  Strings are modelled as Lean
strings; JavaScript regular-expression replacements are modelled as
explicit scans over `List Char`; `throw` is modelled with `Except`;
external collaborators (lodash `camelCase`, `prettier.format`, the `path`
module helpers, `normalizeComponentName`) are passed in as function
parameters, mirroring their role as opaque collaborators.

In rendered output strings, braces are written with the escapes `\x7b`
and `\x7d`, single quotes with `\x27` and backticks with `\x60`.
-/

namespace CodeConnect

/-- Characters matched by the character class `[0-9:]` used in the node-id
regular expressions of `create.ts`. -/
def isNodeIdChar (c : Char) : Bool := c.isDigit || c = ':'

/-- JavaScript `toLowerCase`, restricted to the ASCII mapping. -/
def lowerCase (s : String) : String := ⟨s.data.map Char.toLower⟩

/-- `isBooleanKind` from `create.ts`: lower-cases the value and compares it
with the six boolean-vocabulary words. -/
def isBooleanKind (propValue : String) : Bool :=
  let normalized := lowerCase propValue
  normalized = "true" || normalized = "false" || normalized = "yes" ||
  normalized = "no" || normalized = "on" || normalized = "off"

mutual

/-- Scan implementing the global replacement `name.replace(/#[0-9:]*/g, '')`
of `normalizePropName`: every `#` together with the maximal following run
of digits and colons is removed. -/
def normalizeScan : List Char → List Char
  | [] => []
  | c :: cs => if c = '#' then skipNodeIdRun cs else c :: normalizeScan cs

/-- After a `#` has been consumed, drop the maximal run of `[0-9:]`
characters; a directly following `#` starts a new match of the global
regular expression. -/
def skipNodeIdRun : List Char → List Char
  | [] => []
  | c :: cs =>
      if isNodeIdChar c then skipNodeIdRun cs
      else if c = '#' then skipNodeIdRun cs
      else c :: normalizeScan cs

end

/-- `normalizePropName` from `create.ts`: `name.replace(/#[0-9:]*/g, '')`. -/
def normalizePropName (name : String) : String := ⟨normalizeScan name.data⟩

/-- The replacement `name.replace(/#[0-9:]+$/g, '')` from
`generateCodePropName`: remove a `#` followed by a non-empty run of
digits/colons at the very end of the string. -/
def stripTrailingNodeId (l : List Char) : List Char :=
  let r := l.reverse
  let run := r.takeWhile isNodeIdChar
  if run.isEmpty then l
  else
    match r.drop run.length with
    | '#' :: rest => rest.reverse
    | _ => l

/-- `generateCodePropName` from `create.ts`: strip a trailing node id,
remove every character outside `[a-zA-Z0-9\s]`, and apply lodash
`camelCase` (passed in as the collaborator `camel`). -/
def generateCodePropName (camel : String → String) (name : String) : String :=
  camel ⟨(stripTrailingNodeId name.data).filter (fun c => c.isAlphanum || c.isWhitespace)⟩

/-- `normalizePropValue` from `create.ts`:
`name.replace(/[^a-zA-Z0-9]/g, '-').toLowerCase()`. -/
def normalizePropValue (name : String) : String :=
  lowerCase ⟨name.data.map (fun c => if c.isAlphanum then c else '-')⟩

mutual

/-- The `Intrinsic` values that can appear in a prop mapping.  The six
supported kinds carry the arguments `create.ts` reads from them; `other`
stands for any further `IntrinsicKind` (the renderer's error branch) and
carries its `args` as a generic string-keyed object — the recursive prop
walk enters it like any other object. -/
inductive Intrinsic where
  | String (figmaPropName : String)
  | Boolean (figmaPropName : String) (valueMapping : Option VMList)
  | Enum (figmaPropName : String) (valueMapping : Option VMList)
  | Instance (figmaPropName : String)
  | Children (layers : List String)
  | TextContent (layer : String)
  | other (kind : String) (args : VMList)

/-- The entry list of a `valueMapping` object (`Record<string,
ValueMappingKind>`), in `Object.entries` order. -/
inductive VMList where
  | nil
  | cons (key : String) (value : ValueMappingKind) (rest : VMList)

/-- `ValueMappingKind`: a literal (string, number, boolean, undefined) or a
nested `Intrinsic`. -/
inductive ValueMappingKind where
  | str (s : String)
  | num (n : Int)
  | bool (b : Bool)
  | undef
  | nested (i : Intrinsic)

end

mutual

/-- `generateExpressionFromIntrinsic` from `create.ts`; the `throw` of the
unsupported-kind branch is modelled with `Except.error`. -/
def generateExpressionFromIntrinsic : Intrinsic → Except String String
  | .String p => .ok ("figma.string(\"" ++ p ++ "\")")
  | .Boolean p vm => do
      let t ← genValueMappingArg vm
      .ok ("figma.boolean(\"" ++ p ++ "\"" ++ t ++ ")")
  | .Enum p vm => do
      let t ← genValueMappingArg vm
      .ok ("figma.enum(\"" ++ p ++ "\"" ++ t ++ ")")
  | .Instance p => .ok ("figma.instance(\"" ++ p ++ "\")")
  | .Children layers =>
      .ok ("figma.children(" ++
        (if layers.length > 1 then
          "[" ++ String.intercalate ", " (layers.map (fun l => "\"" ++ l ++ "\"")) ++ "]"
        else
          "\"" ++ (match layers with | [] => "undefined" | l :: _ => l) ++ "\"") ++ ")")
  | .TextContent layer => .ok ("figma.textContent(\"" ++ layer ++ "\")")
  | .other k _ => .error ("kind " ++ k ++ " not supported for prop mapping")

/-- The second-argument text of a boolean/enum binding: empty when
`args.valueMapping` is `undefined` (JavaScript falsy); otherwise `, ` plus
the rendered object literal.  An object — even without entries — is truthy
in JavaScript, so every present mapping is rendered. -/
def genValueMappingArg : Option VMList → Except String String
  | none => .ok ""
  | some vm => do
      let entries ← genValueMappingEntries vm
      .ok (", \x7b\n  " ++ String.intercalate ",\n" entries ++ "\n\x7d")

/-- The rendered entries of `generateExpressionValueMapping`, one string
per entry, later joined with `,\n`. -/
def genValueMappingEntries : VMList → Except String (List String)
  | .nil => .ok []
  | .cons k v rest => do
      let s ← genValueMappingKind v
      let r ← genValueMappingEntries rest
      .ok (("\"" ++ k ++ "\": " ++ s) :: r)

/-- `generateExpressionValueMappingKind` from `create.ts`: nested
intrinsics are rendered recursively, strings are quoted, numbers, booleans
and `undefined` are rendered bare. -/
def genValueMappingKind : ValueMappingKind → Except String String
  | .str s => .ok ("\"" ++ s ++ "\"")
  | .num n => .ok (toString n)
  | .bool b => .ok (toString b)
  | .undef => .ok "undefined"
  | .nested i => generateExpressionFromIntrinsic i

end

mutual

/-- An intrinsic built only from the six supported kinds, at every nesting
depth — the shape of intrinsic the spec's data model admits in a request
payload and that the generators construct. -/
def supportedDeep : Intrinsic → Bool
  | .String _ => true
  | .Boolean _ vm => supportedDeepVMOpt vm
  | .Enum _ vm => supportedDeepVMOpt vm
  | .Instance _ => true
  | .Children _ => true
  | .TextContent _ => true
  | .other _ _ => false

/-- `supportedDeep` over an optional value mapping. -/
def supportedDeepVMOpt : Option VMList → Bool
  | none => true
  | some vm => supportedDeepVMList vm

/-- `supportedDeep` over a value-mapping entry list. -/
def supportedDeepVMList : VMList → Bool
  | .nil => true
  | .cons _ v rest => supportedDeepVMKind v && supportedDeepVMList rest

/-- `supportedDeep` over a single value-mapping entry value. -/
def supportedDeepVMKind : ValueMappingKind → Bool
  | .nested i => supportedDeep i
  | _ => true

end

/-- The `type` attribute of a `ComponentPropertyDefinition`; `other` covers
every unsupported type string. -/
inductive PropType where
  | BOOLEAN
  | TEXT
  | VARIANT
  | INSTANCE_SWAP
  | other (t : String)
  deriving DecidableEq

/-- `ComponentPropertyDefinition`: a design property's declared type and,
for variants, its option list (`variantOptions` may be absent). -/
structure ComponentPropertyDefinition where
  type : PropType
  variantOptions : Option (List String)

/-- The inline classifier of `generateSinglePropMappingFromFigmaProp`:
`propDef.variantOptions?.length === 2 && propDef.variantOptions.every(isBooleanKind)`.
The spec names it `isBinaryBooleanVariant`. -/
def isBinaryBooleanVariant (variantOptions : Option (List String)) : Bool :=
  match variantOptions with
  | some opts => opts.length = 2 && opts.all isBooleanKind
  | none => false

/-- The body text of the enum value mapping emitted by
`generateSinglePropMappingFromFigmaProp`:
`propDef.variantOptions?.map(v => ...).join(',\n')`; when `variantOptions`
is absent, JavaScript template interpolation of `undefined` yields the text
`undefined`. -/
def enumMappingBody (variantOptions : Option (List String)) : String :=
  match variantOptions with
  | none => "undefined"
  | some opts =>
      String.intercalate ",\n"
        (opts.map (fun value => "  \"" ++ value ++ "\": \"" ++ normalizePropValue value ++ "\""))

/-- `generateSinglePropMappingFromFigmaProp` from `create.ts`: one
suggested declaration per supported property type, `none` (JavaScript
`null`) for unsupported types. -/
def generateSinglePropMappingFromFigmaProp (camel : String → String)
    (propName : String) (propDef : ComponentPropertyDefinition) : Option String :=
  let codePropName := generateCodePropName camel propName
  let figmaPropName := normalizePropName propName
  if propDef.type = .BOOLEAN then
    some ("\"" ++ codePropName ++ "\": figma.boolean(\x27" ++ figmaPropName ++ "\x27)")
  else if propDef.type = .TEXT then
    some ("\"" ++ codePropName ++ "\": figma.string(\x27" ++ figmaPropName ++ "\x27)")
  else if propDef.type = .VARIANT then
    if isBinaryBooleanVariant propDef.variantOptions then
      some ("\"" ++ codePropName ++ "\": figma.boolean(\x27" ++ figmaPropName ++ "\x27)")
    else
      some ("\"" ++ codePropName ++ "\": figma.enum(\x27" ++ figmaPropName ++ "\x27, \x7b \n" ++
        enumMappingBody propDef.variantOptions ++ "\x7d)")
  else if propDef.type = .INSTANCE_SWAP then
    some ("\"" ++ codePropName ++ "\": figma.instance(\x27" ++ figmaPropName ++ "\x27)")
  else
    none

/-- `componentPropertyDefinitions` in `Object.entries` order. -/
abbrev PropDefs := List (String × ComponentPropertyDefinition)

/-- The `props` list accumulated by `generateProps`. -/
def generatePropsList (camel : String → String) (defs : PropDefs) : List String :=
  defs.filterMap (fun nd => generateSinglePropMappingFromFigmaProp camel nd.1 nd.2)

/-- `generateProps` from `create.ts` (auto-mapping path), as the final
props-block text. -/
def generateProps (camel : String → String) (defs : PropDefs) : String :=
  if defs.length = 0 then "\x7b\x7d"
  else "\x7b\n  " ++ String.intercalate ",\n  " (generatePropsList camel defs) ++ "\n\x7d"

/-- A caller-supplied `PropMapping` in `Object.entries` order. -/
abbrev PropMapping := List (String × Intrinsic)

mutual

/-- The raw JavaScript values pushed by
`getSetOfAllPropsReferencedInPropMapping` while walking one intrinsic
object (`create.ts:127-133`): on every entry of every object it enters,
the value is pushed when the key is literally `figmaPropName`, and the
value is entered recursively when it is an object.  For the six supported
kinds the `args` object has known keys: its `figmaPropName` attribute is a
string and is pushed, its `valueMapping` object is entered, and
`layers`/`layer`/`kind` contribute nothing; an unsupported intrinsic's
`args` object is walked generically. -/
def propsInIntrinsic : Intrinsic → List ValueMappingKind
  | .String p => [.str p]
  | .Boolean p vm => .str p :: propsInVMOpt vm
  | .Enum p vm => .str p :: propsInVMOpt vm
  | .Instance p => [.str p]
  | .Children _ => []
  | .TextContent _ => []
  | .other _ args => propsInVMList args

/-- Walk of an optional `valueMapping` attribute: absent means the
attribute is `undefined` and is not an object, so it is not entered. -/
def propsInVMOpt : Option VMList → List ValueMappingKind
  | none => []
  | some vm => propsInVMList vm

/-- Walk of the entries of a string-keyed object (a `valueMapping`, or an
unsupported intrinsic's `args`): an entry whose key is literally
`figmaPropName` has its value pushed (`create.ts:128-130`), and every
object-typed value is entered recursively. -/
def propsInVMList : VMList → List ValueMappingKind
  | .nil => []
  | .cons k v rest =>
      (if k = "figmaPropName" then [v] else []) ++ propsInVMKind v ++ propsInVMList rest

/-- Walk of one entry value: only a nested intrinsic is an object and is
entered. -/
def propsInVMKind : ValueMappingKind → List ValueMappingKind
  | .nested i => propsInIntrinsic i
  | _ => []

end

/-- `getSetOfAllPropsReferencedInPropMapping` from `create.ts`, as the
list of collected values (membership gives the set). -/
def getSetOfAllPropsReferencedInPropMapping (pm : PropMapping) :
    List ValueMappingKind :=
  (pm.map (fun ki => propsInIntrinsic ki.2)).flatten

/-- SameValueZero comparison of a collected value against a string, as
used by `usedFigmaPropsSet.has(propName)`: a string probe matches only a
string element with the same characters — a pushed number, boolean,
`undefined` or object never equals a property name. -/
def eqStr (v : ValueMappingKind) (name : String) : Bool :=
  match v with
  | .str s => s = name
  | _ => false

/-- `usedFigmaPropsSet.has(propName)` from `generatePropsFromMapping`. -/
def usedSetHas (pm : PropMapping) (name : String) : Bool :=
  (getSetOfAllPropsReferencedInPropMapping pm).any (fun v => eqStr v name)

/-- The `mappedProps` list of `generatePropsFromMapping`: each intrinsic is
rendered (propagating the renderer's `throw`), and the declaration is
pushed when the rendered expression is truthy (a non-empty string). -/
def mappedPropsList : PropMapping → Except String (List String)
  | [] => .ok []
  | (propName, intr) :: rest => do
      let expr ← generateExpressionFromIntrinsic intr
      let r ← mappedPropsList rest
      .ok (if expr = "" then r else ("\"" ++ propName ++ "\": " ++ expr) :: r)

/-- The `unmappedProps` list of `generatePropsFromMapping`: a suggested
declaration for every component property whose raw key is not in the used
set, skipping unsupported types. -/
def unmappedPropsList (camel : String → String) (defs : PropDefs) (pm : PropMapping) :
    List String :=
  defs.filterMap (fun nd =>
    if usedSetHas pm nd.1 then none
    else generateSinglePropMappingFromFigmaProp camel nd.1 nd.2)

/-- `generatePropsFromMapping` from `create.ts` (explicit-mapping path), as
the final props-block text. -/
def generatePropsFromMapping (camel : String → String) (defs : PropDefs)
    (pm : PropMapping) : Except String String := do
  let mappedProps ← mappedPropsList pm
  let unmappedProps := unmappedPropsList camel defs pm
  .ok ("\x7b\n  // These props were automatically mapped based on your linked code:\n  " ++
    String.intercalate ",\n" mappedProps ++ ",\n  " ++
    (if unmappedProps.length ≠ 0 then
      "// No matching props could be found for these Figma properties:\n  " ++
      String.intercalate ",\n" (unmappedProps.map (fun prop => "// " ++ prop))
    else "") ++ "\n  \x7d")

/-- The `component` part of a request payload. -/
structure Component where
  normalizedName : String
  figmaNodeUrl : String
  componentPropertyDefinitions : PropDefs

/-- `CreateRequestPayload`: optional strings model optional attributes. -/
structure CreateRequestPayload where
  component : Component
  destinationFile : Option String
  destinationDir : Option String
  sourceFilepath : Option String
  sourceExport : Option String
  propMapping : Option PropMapping

/-- One response message. -/
structure Message where
  message : String
  level : String
  deriving DecidableEq

/-- One created-file entry. -/
structure CreatedFile where
  filePath : String
  deriving DecidableEq

/-- `CreateResponsePayload`. -/
structure CreateResponsePayload where
  createdFiles : List CreatedFile
  messages : List Message
  deriving DecidableEq

/-- The filesystem state threaded through `createReactCodeConnect`:
written files (path and contents) and directories created by `mkdirSync`. -/
structure FileSystem where
  files : List (String × String)
  dirs : List String
  deriving DecidableEq

/-- `fs.existsSync` on a written file path. -/
def existsSync (fs : FileSystem) (p : String) : Bool :=
  fs.files.any (fun f => f.1 = p)

/-- The external collaborators `create.ts` imports: lodash `camelCase`,
`normalizeComponentName` from `../connect/create`, node `path` helpers and
`prettier.format` with the fixed option object. -/
structure Collaborators where
  camel : String → String
  normalizeComponentName : String → String
  parseName : String → String
  format : String → String
  sep : Char
  relative : String → String → String
  dirname : String → String

/-- JavaScript truthiness of an optional string attribute: present and
non-empty. -/
def strTruthy : Option String → Bool
  | none => false
  | some s => s ≠ ""

/-- `s.split('.')[0]`: the segment before the first dot. -/
def firstDotSegment (s : String) : String := ⟨s.data.takeWhile (fun c => c ≠ '.')⟩

/-- `sourceFilepath ? path.parse(sourceFilepath).name.split('.')[0] :
normalizedName` from `createReactCodeConnect`. -/
def sourceFilenameOf (cb : Collaborators) (payload : CreateRequestPayload) : String :=
  match payload.sourceFilepath with
  | some s => if s = "" then payload.component.normalizedName
              else firstDotSegment (cb.parseName s)
  | none => payload.component.normalizedName

/-- Modelled from the spec: `getOutFileName` lives in
`cli/src/connect/create_common.ts`, which is not part of the sources here.
Per §4.6.1 the destination path is resolved from `destinationFile` /
`destinationDir` plus the derived base filename and the fixed extension. -/
def getOutFileName (outFile : Option String) (outDir : Option String)
    (sourceFilename : String) (extension : String) : String :=
  match outFile with
  | some f => if f = "" then (outDir.getD "") ++ "/" ++ sourceFilename ++ "." ++ extension
              else f
  | none => (outDir.getD "") ++ "/" ++ sourceFilename ++ "." ++ extension

/-- The destination path computed by `createReactCodeConnect`. -/
def resolvedFilePath (cb : Collaborators) (payload : CreateRequestPayload) : String :=
  getOutFileName payload.destinationFile payload.destinationDir
    (sourceFilenameOf cb payload) "tsx"

/-- `formattedImportPath.replaceAll(path.sep, '/')` from
`formatImportPath`. -/
def replaceSep (sep : Char) (s : String) : String :=
  ⟨s.data.map (fun c => if c = sep then '/' else c)⟩

/-- The `./` prefix step of `formatImportPath`: prepend `./` unless the
path already starts with `.`. -/
def dotPrefixed (s : String) : String :=
  if s.data.head? = some '.' then s else "./" ++ s

/-- `formattedImportPath.replace(/\.(jsx|tsx)$/, '')` from
`formatImportPath`. -/
def stripScriptExt (s : String) : String :=
  match s.data.reverse with
  | 'x' :: 's' :: 'j' :: '.' :: rest => ⟨rest.reverse⟩
  | 'x' :: 's' :: 't' :: '.' :: rest => ⟨rest.reverse⟩
  | _ => s

/-- `formatImportPath` from `create.ts`. -/
def formatImportPath (sep : Char) (systemPath : String) : String :=
  stripScriptExt (dotPrefixed (replaceSep sep systemPath))

/-- `getImportsPath` from `create.ts`. -/
def getImportsPath (cb : Collaborators) (codeConnectFilePath : String)
    (sourceFilepath : Option String) (normalizedName : String) : String :=
  match sourceFilepath with
  | none => "./" ++ normalizedName
  | some s =>
      if s = "" then "./" ++ normalizedName
      else formatImportPath cb.sep (cb.relative (cb.dirname codeConnectFilePath) s)

/-- The import path computed by `createReactCodeConnect`. -/
def importsPathOf (cb : Collaborators) (payload : CreateRequestPayload) : String :=
  getImportsPath cb (resolvedFilePath cb payload) payload.sourceFilepath
    payload.component.normalizedName

/-- `propMapping && Object.keys(propMapping).length > 0`. -/
def hasPropMapping (payload : CreateRequestPayload) : Bool :=
  match payload.propMapping with
  | some pm => pm.length > 0
  | none => false

/-- The `importName` expression of `createReactCodeConnect`: the
conditional requires BOTH `sourceFilepath` and `sourceExport` to be truthy
before looking at `sourceExport`. -/
def importNameOf (cb : Collaborators) (payload : CreateRequestPayload) : String :=
  match payload.sourceFilepath, payload.sourceExport with
  | some src, some ex =>
      if src = "" then payload.component.normalizedName
      else if ex = "" then payload.component.normalizedName
      else if ex = "default" then cb.normalizeComponentName (sourceFilenameOf cb payload)
      else ex
  | _, _ => payload.component.normalizedName

/-- The import clause: `sourceExport === 'default' ? importName :
`\x7b importName \x7d``. -/
def importClauseOf (cb : Collaborators) (payload : CreateRequestPayload) : String :=
  if payload.sourceExport = some "default" then importNameOf cb payload
  else "\x7b " ++ importNameOf cb payload ++ " \x7d"

/-- The documentation comment block of the template, selected on
`hasPropMapping`. -/
def docCommentText (hasMapping : Bool) : String :=
  if hasMapping then
    "/**\n * -- This file was auto-generated by Code Connect --\n * \x60props\x60 includes a mapping from your code props to Figma properties.\n * You should check this is correct, and update the \x60example\x60 function\n * to return the code example you\x27d like to see in Figma\n*/"
  else
    "/**\n * -- This file was auto-generated by Code Connect --\n * \x60props\x60 includes a mapping from Figma properties and variants to\n * suggested values. You should update this to match the props of your\n * code component, and update the \x60example\x60 function to return the\n * code example you\x27d like to see in Figma\n*/"

/-- The props block of the template: explicit-mapping path when
`hasPropMapping`, auto-mapping path otherwise. -/
def propsTextOf (cb : Collaborators) (payload : CreateRequestPayload) :
    Except String String :=
  if hasPropMapping payload then
    generatePropsFromMapping cb.camel payload.component.componentPropertyDefinitions
      (payload.propMapping.getD [])
  else
    .ok (generateProps cb.camel payload.component.componentPropertyDefinitions)

/-- The `codeConnect` template string of `createReactCodeConnect`. -/
def codeConnectTemplate (cb : Collaborators) (payload : CreateRequestPayload) :
    Except String String := do
  let props ← propsTextOf cb payload
  let importName := importNameOf cb payload
  .ok ("\nimport React from \x27react\x27\nimport " ++ importClauseOf cb payload ++
    " from \x27" ++ importsPathOf cb payload ++
    "\x27\nimport figma from \x27@figma/code-connect\x27\n\n" ++
    docCommentText (hasPropMapping payload) ++
    "\n\nfigma.connect(" ++ importName ++ ", \"" ++ payload.component.figmaNodeUrl ++
    "\", \x7b\n  props: " ++ props ++ ",\n  example: (props) => <" ++ importName ++
    " />\n\x7d)\n")

/-- The formatted file contents written on success. -/
def formattedContent (cb : Collaborators) (payload : CreateRequestPayload) :
    Except String String := do
  let tmpl ← codeConnectTemplate cb payload
  .ok (cb.format tmpl)

/-- `createReactCodeConnect` from `create.ts`: build and format the file
text (the renderer's `throw` propagates), then either report an existing
destination with one ERROR message and no write, or create the directory,
write the file and report the single created file. -/
def createReactCodeConnect (cb : Collaborators) (fs : FileSystem)
    (payload : CreateRequestPayload) :
    Except String (CreateResponsePayload × FileSystem) := do
  let formatted ← formattedContent cb payload
  let filePath := resolvedFilePath cb payload
  if existsSync fs filePath then
    .ok ({ createdFiles := [],
           messages := [{ message := "File " ++ filePath ++ " already exists, skipping creation",
                          level := "ERROR" }] }, fs)
  else
    .ok ({ createdFiles := [{ filePath := filePath }], messages := [] },
         { files := (filePath, formatted) :: fs.files,
           dirs := cb.dirname filePath :: fs.dirs })

/-- Every intrinsic of the payload's prop mapping is built from supported
kinds only — the shape §3 of the spec admits for a request payload. -/
def payloadMappingSupported (payload : CreateRequestPayload) : Bool :=
  match payload.propMapping with
  | none => true
  | some pm => pm.all (fun ki => supportedDeep ki.2)

/-! ## Small monad-reduction lemmas for `Except` -/

/-- `bind` on a successful `Except` value. -/
@[simp] theorem ok_bind {α β ε : Type} (a : α) (f : α → Except ε β) :
    (Except.ok a : Except ε α) >>= f = f a := rfl

/-- `bind` on a failed `Except` value. -/
@[simp] theorem error_bind {α β ε : Type} (e : ε) (f : α → Except ε β) :
    (Except.error e : Except ε α) >>= f = Except.error e := rfl

/-! ## Lemmas about the normalization scan -/

/-- A name without `#` is left unchanged by the scan. -/
theorem normalizeScan_of_no_hash (l : List Char) (h : ∀ c ∈ l, c ≠ '#') :
    normalizeScan l = l := by
  induction l with
  | nil => rfl
  | cons c cs ih =>
      have hc : c ≠ '#' := h c (List.mem_cons_self c cs)
      have ihc := ih (fun x hx => h x (List.mem_cons_of_mem c hx))
      simp [normalizeScan, hc, ihc]

/-- A run made only of digits/colons is dropped completely after a `#`. -/
theorem skipNodeIdRun_of_all_node (t : List Char) (h : ∀ c ∈ t, isNodeIdChar c = true) :
    skipNodeIdRun t = [] := by
  induction t with
  | nil => rfl
  | cons c cs ih =>
      have hc : isNodeIdChar c = true := h c (List.mem_cons_self c cs)
      have ihc := ih (fun x hx => h x (List.mem_cons_of_mem c hx))
      simp [skipNodeIdRun, hc, ihc]

/-- The scan removes a final `#` plus digit/colon run and keeps a
`#`-free prefix. -/
theorem normalizeScan_append_hash (p t : List Char) (hp : ∀ c ∈ p, c ≠ '#')
    (ht : ∀ c ∈ t, isNodeIdChar c = true) :
    normalizeScan (p ++ '#' :: t) = p := by
  induction p with
  | nil => simp [normalizeScan, skipNodeIdRun_of_all_node t ht]
  | cons c cs ih =>
      have hc : c ≠ '#' := hp c (List.mem_cons_self c cs)
      have ihc := ih (fun x hx => hp x (List.mem_cons_of_mem c hx))
      simp [normalizeScan, hc, ihc]

/-- The claim's node-id-annotation shape `#<digits>[:<digits>]*`:
a `#` followed by non-empty digit groups separated by colons. -/
def nodeIdShape (l : List Char) : Bool :=
  match l with
  | '#' :: t => (t.splitOn ':').all (fun g => g.length > 0 && g.all Char.isDigit)
  | _ => false

/-- Whether some suffix of the name is a node-id annotation of the
claim's shape. -/
def hasTrailingNodeId (name : String) : Bool :=
  (List.range (name.data.length + 1)).any (fun i => nodeIdShape (name.data.drop i))

/-- C2, counterexample.  The raw name `a#b` contains no trailing node-id
annotation of shape `#<digits>[:<digits>]*`, so the claim says
`normalizePropName` is the identity on it; the code's global replacement
of `/#[0-9:]*/g` nevertheless deletes the bare `#`, producing `ab`. -/
theorem normalizePropName_not_identity_without_node_id :
    hasTrailingNodeId "a#b" = false ∧ normalizePropName "a#b" = "ab" ∧
    normalizePropName "a#b" ≠ "a#b" := by
  refine ⟨by decide, by decide, by decide⟩

/-- C2, amended.  `normalizePropName` deletes every `#` together with the
maximal following run of digits and colons, anywhere in the string: it is
the identity on names containing no `#` at all, and on a `#`-free prefix
followed by one `#` plus a digit/colon run (in particular a trailing
node-id annotation) it returns exactly the prefix. -/
theorem normalizePropName_removes_hash_runs (p t : List Char)
    (hp : ∀ c ∈ p, c ≠ '#') (ht : ∀ c ∈ t, isNodeIdChar c = true) :
    normalizePropName ⟨p⟩ = ⟨p⟩ ∧ normalizePropName ⟨p ++ '#' :: t⟩ = ⟨p⟩ := by
  unfold normalizePropName
  exact ⟨by rw [normalizeScan_of_no_hash p hp],
         by rw [normalizeScan_append_hash p t hp ht]⟩

/-- Witness for the amended C2 at the spec's own example `Size#12:3`. -/
theorem normalizePropName_removes_hash_runs_witness :
    (∀ c ∈ ("Size".data), c ≠ '#') ∧ (∀ c ∈ ("12:3".data), isNodeIdChar c = true) ∧
    (normalizePropName ⟨"Size".data⟩ = ⟨"Size".data⟩ ∧
      normalizePropName ⟨"Size".data ++ '#' :: "12:3".data⟩ = ⟨"Size".data⟩) :=
  ⟨by decide, by decide,
    normalizePropName_removes_hash_runs "Size".data "12:3".data (by decide) (by decide)⟩

/-- C3.  The binary-boolean-variant classifier accepts exactly the
two-element option lists whose entries all lower-case into the six-word
boolean vocabulary. -/
theorem isBinaryBooleanVariant_iff (options : List String) :
    isBinaryBooleanVariant (some options) = true ↔
      options.length = 2 ∧
        ∀ o ∈ options,
          lowerCase o ∈ (["true", "false", "yes", "no", "on", "off"] : List String) := by
  simp only [isBinaryBooleanVariant, Bool.and_eq_true, decide_eq_true_eq,
    List.all_eq_true, isBooleanKind, List.mem_cons, List.mem_singleton,
    Bool.or_eq_true, List.not_mem_nil, or_false]
  constructor
  · rintro ⟨h2, h⟩
    exact ⟨h2, fun o ho => by have := h o ho; tauto⟩
  · rintro ⟨h2, h⟩
    exact ⟨h2, fun o ho => by have := h o ho; tauto⟩

/-- C4, counterexample.  A Boolean intrinsic whose `valueMapping` is
present but has zero entries: the claim says the rendered expression has
the quoted design property name as its sole argument, but `create.ts`
tests `args.valueMapping ? ... : ''` and an empty object is truthy in
JavaScript, so the empty object literal is still rendered as a second
argument. -/
theorem emptyValueMapping_still_rendered :
    generateExpressionFromIntrinsic (.Boolean "p" (some .nil)) =
      .ok "figma.boolean(\"p\", \x7b\n  \n\x7d)" ∧
    generateExpressionFromIntrinsic (.Boolean "p" (some .nil)) ≠
      .ok "figma.boolean(\"p\")" :=
  ⟨rfl, fun h => absurd (Except.ok.inj h) (by decide)⟩

/-- C4, amended.  For Boolean and Enum intrinsics the value-mapping
object-literal argument is rendered exactly when `valueMapping` is
present (`some`), regardless of whether it has entries; when it is absent
the quoted design property name is the sole argument. -/
theorem valueMappingArg_iff_present :
    (∀ p : String, generateExpressionFromIntrinsic (.Boolean p none) =
        .ok ("figma.boolean(\"" ++ p ++ "\")")) ∧
    (∀ (p : String) (vm : VMList) (entries : List String),
        genValueMappingEntries vm = .ok entries →
        generateExpressionFromIntrinsic (.Boolean p (some vm)) =
          .ok ("figma.boolean(\"" ++ p ++ "\", \x7b\n  " ++
            String.intercalate ",\n" entries ++ "\n\x7d)")) ∧
    (∀ p : String, generateExpressionFromIntrinsic (.Enum p none) =
        .ok ("figma.enum(\"" ++ p ++ "\")")) ∧
    (∀ (p : String) (vm : VMList) (entries : List String),
        genValueMappingEntries vm = .ok entries →
        generateExpressionFromIntrinsic (.Enum p (some vm)) =
          .ok ("figma.enum(\"" ++ p ++ "\", \x7b\n  " ++
            String.intercalate ",\n" entries ++ "\n\x7d)")) := by
  refine ⟨fun p => ?_, fun p vm entries h => ?_, fun p => ?_, fun p vm entries h => ?_⟩ <;>
    simp only [generateExpressionFromIntrinsic, genValueMappingArg, ok_bind, *] <;>
    simp only [String.append_assoc] <;> rfl

/-- Witness for the amended C4 at a one-entry and a zero-entry mapping. -/
theorem valueMappingArg_iff_present_witness :
    genValueMappingEntries .nil = .ok [] ∧
    generateExpressionFromIntrinsic (.Boolean "p" none) =
      .ok ("figma.boolean(\"" ++ "p" ++ "\")") ∧
    generateExpressionFromIntrinsic (.Enum "q" (some .nil)) =
      .ok ("figma.enum(\"" ++ "q" ++ "\", \x7b\n  " ++
        String.intercalate ",\n" [] ++ "\n\x7d)") :=
  ⟨rfl, valueMappingArg_iff_present.1 "p",
    valueMappingArg_iff_present.2.2.2 "q" .nil [] rfl⟩

mutual

/-- A deeply supported intrinsic always renders successfully. -/
theorem genIntrinsic_ok_of_supported :
    ∀ i : Intrinsic, supportedDeep i = true →
      ∃ s, generateExpressionFromIntrinsic i = Except.ok s
  | .String p, _ => ⟨_, rfl⟩
  | .Boolean p vm, h => by
      obtain ⟨t, ht⟩ := genVMArg_ok_of_supported vm h
      exact ⟨"figma.boolean(\"" ++ p ++ "\"" ++ t ++ ")",
        by simp only [generateExpressionFromIntrinsic, ht, ok_bind]⟩
  | .Enum p vm, h => by
      obtain ⟨t, ht⟩ := genVMArg_ok_of_supported vm h
      exact ⟨"figma.enum(\"" ++ p ++ "\"" ++ t ++ ")",
        by simp only [generateExpressionFromIntrinsic, ht, ok_bind]⟩
  | .Instance p, _ => ⟨_, rfl⟩
  | .Children layers, _ => ⟨_, rfl⟩
  | .TextContent layer, _ => ⟨_, rfl⟩

/-- A deeply supported optional value mapping renders successfully. -/
theorem genVMArg_ok_of_supported :
    ∀ vm : Option VMList, supportedDeepVMOpt vm = true →
      ∃ s, genValueMappingArg vm = Except.ok s
  | none, _ => ⟨"", rfl⟩
  | some vm, h => by
      obtain ⟨l, hl⟩ := genVMEntries_ok_of_supported vm h
      exact ⟨", \x7b\n  " ++ String.intercalate ",\n" l ++ "\n\x7d",
        by simp only [genValueMappingArg, hl, ok_bind]⟩

/-- Deeply supported value-mapping entries render successfully. -/
theorem genVMEntries_ok_of_supported :
    ∀ vm : VMList, supportedDeepVMList vm = true →
      ∃ l, genValueMappingEntries vm = Except.ok l
  | .nil, _ => ⟨[], rfl⟩
  | .cons k v rest, h => by
      have h' := h
      simp only [supportedDeepVMList, Bool.and_eq_true] at h'
      obtain ⟨s, hs⟩ := genVMK_ok_of_supported v h'.1
      obtain ⟨l, hl⟩ := genVMEntries_ok_of_supported rest h'.2
      exact ⟨("\"" ++ k ++ "\": " ++ s) :: l,
        by simp only [genValueMappingEntries, hs, hl, ok_bind]⟩

/-- A deeply supported value-mapping entry value renders successfully. -/
theorem genVMK_ok_of_supported :
    ∀ v : ValueMappingKind, supportedDeepVMKind v = true →
      ∃ s, genValueMappingKind v = Except.ok s
  | .str _, _ => ⟨_, rfl⟩
  | .num _, _ => ⟨_, rfl⟩
  | .bool _, _ => ⟨_, rfl⟩
  | .undef, _ => ⟨_, rfl⟩
  | .nested i, h => genIntrinsic_ok_of_supported i h

end

/-- C5.  Every intrinsic outside the six supported kinds makes the
renderer fail with the `not supported for prop mapping` error (so it never
returns an expression), and every intrinsic built from supported kinds
only — the only intrinsics the generators construct — renders
successfully, so the error branch is unreachable for them. -/
theorem unsupported_errors_supported_renders :
    (∀ (k : String) (args : VMList), generateExpressionFromIntrinsic (.other k args) =
        .error ("kind " ++ k ++ " not supported for prop mapping")) ∧
    (∀ i : Intrinsic, supportedDeep i = true →
        ∃ s, generateExpressionFromIntrinsic i = Except.ok s) :=
  ⟨fun _ _ => rfl, genIntrinsic_ok_of_supported⟩

/-- Witness for C5 at a supported intrinsic. -/
theorem unsupported_errors_supported_renders_witness :
    supportedDeep (.String "Label") = true ∧
    ∃ s, generateExpressionFromIntrinsic (.String "Label") = Except.ok s :=
  ⟨rfl, unsupported_errors_supported_renders.2 (.String "Label") rfl⟩

/-- The four property types the auto-mapping generator supports. -/
def isSupportedPropType : PropType → Bool
  | .BOOLEAN => true
  | .TEXT => true
  | .VARIANT => true
  | .INSTANCE_SWAP => true
  | .other _ => false

/-- `generateSinglePropMappingFromFigmaProp` yields a declaration exactly
for the supported property types. -/
theorem singleMapping_isSome (camel : String → String) (propName : String)
    (propDef : ComponentPropertyDefinition) :
    (generateSinglePropMappingFromFigmaProp camel propName propDef).isSome =
      isSupportedPropType propDef.type := by
  cases h : propDef.type <;>
    simp [generateSinglePropMappingFromFigmaProp, isSupportedPropType, h] <;>
    (split <;> simp)

/-- Counting declarations: one per supported property. -/
theorem generatePropsList_length (camel : String → String) (defs : PropDefs) :
    (generatePropsList camel defs).length =
      (defs.filter (fun nd => isSupportedPropType nd.2.type)).length := by
  induction defs with
  | nil => rfl
  | cons nd rest ih =>
      obtain ⟨n, d⟩ := nd
      cases hm : generateSinglePropMappingFromFigmaProp camel n d with
      | none =>
          have hs := singleMapping_isSome camel n d
          rw [hm] at hs
          simp only [Option.isSome_none] at hs
          simpa [generatePropsList, List.filterMap_cons, List.filter_cons, hm,
            hs.symm] using ih
      | some val =>
          have hs := singleMapping_isSome camel n d
          rw [hm] at hs
          simp only [Option.isSome_some] at hs
          simpa [generatePropsList, List.filterMap_cons, List.filter_cons, hm,
            hs.symm] using ih

/-- C6.  The auto-mapping generator emits exactly one declaration per
supported-type property and none for unsupported types; BOOLEAN and
binary-boolean VARIANT properties get a boolean binding, TEXT a string
binding, other VARIANTs an enum binding mapping every option to its
lower-cased slug (non-alphanumerics replaced by `-`), INSTANCE_SWAP an
instance binding. -/
theorem autoMapping_total_over_supported :
    (∀ (camel : String → String) (defs : PropDefs),
      (generatePropsList camel defs).length =
        (defs.filter (fun nd => isSupportedPropType nd.2.type)).length) ∧
    (∀ (camel : String → String) (n : String) (vo : Option (List String)),
      generateSinglePropMappingFromFigmaProp camel n ⟨.BOOLEAN, vo⟩ =
        some ("\"" ++ generateCodePropName camel n ++ "\": figma.boolean(\x27" ++
          normalizePropName n ++ "\x27)")) ∧
    (∀ (camel : String → String) (n : String) (vo : Option (List String)),
      generateSinglePropMappingFromFigmaProp camel n ⟨.TEXT, vo⟩ =
        some ("\"" ++ generateCodePropName camel n ++ "\": figma.string(\x27" ++
          normalizePropName n ++ "\x27)")) ∧
    (∀ (camel : String → String) (n : String) (opts : List String),
      generateSinglePropMappingFromFigmaProp camel n ⟨.VARIANT, some opts⟩ =
        some (if isBinaryBooleanVariant (some opts) then
          "\"" ++ generateCodePropName camel n ++ "\": figma.boolean(\x27" ++
            normalizePropName n ++ "\x27)"
        else
          "\"" ++ generateCodePropName camel n ++ "\": figma.enum(\x27" ++
            normalizePropName n ++ "\x27, \x7b \n" ++
            String.intercalate ",\n" (opts.map (fun value =>
              "  \"" ++ value ++ "\": \"" ++ normalizePropValue value ++ "\"")) ++
            "\x7d)")) ∧
    (∀ (camel : String → String) (n : String) (vo : Option (List String)),
      generateSinglePropMappingFromFigmaProp camel n ⟨.INSTANCE_SWAP, vo⟩ =
        some ("\"" ++ generateCodePropName camel n ++ "\": figma.instance(\x27" ++
          normalizePropName n ++ "\x27)")) ∧
    (∀ (camel : String → String) (n : String) (t : String) (vo : Option (List String)),
      generateSinglePropMappingFromFigmaProp camel n ⟨.other t, vo⟩ = none) ∧
    (∀ value : String, (normalizePropValue value).data =
      value.data.map (fun c => if c.isAlphanum then c.toLower else '-')) := by
  refine ⟨generatePropsList_length, fun camel n vo => rfl, fun camel n vo => rfl,
    fun camel n opts => ?_, fun camel n vo => rfl, fun camel n t vo => ?_, fun value => ?_⟩
  · simp [generateSinglePropMappingFromFigmaProp, enumMappingBody, apply_ite some]
  · simp [generateSinglePropMappingFromFigmaProp]
  · simp only [normalizePropValue, lowerCase, List.map_map]
    refine List.map_congr_left fun c _ => ?_
    by_cases h : c.isAlphanum <;> simp [h, Function.comp]

mutual

/-- The claim's notion of reference: the value `q` appears as the value of
an attribute literally named `figmaPropName` somewhere in the intrinsic
object, at any nesting depth — either the `figmaPropName` attribute of an
intrinsic's `args`, or an entry of any walked object (a value mapping, or
an unsupported intrinsic's `args`) whose key is literally
`figmaPropName`. -/
inductive RefsIn : Intrinsic → ValueMappingKind → Prop where
  | stringProp (p : String) : RefsIn (.String p) (.str p)
  | booleanProp (p : String) (vm : Option VMList) : RefsIn (.Boolean p vm) (.str p)
  | enumProp (p : String) (vm : Option VMList) : RefsIn (.Enum p vm) (.str p)
  | instanceProp (p : String) : RefsIn (.Instance p) (.str p)
  | booleanNested (p : String) (vm : Option VMList) (q : ValueMappingKind) :
      RefsInOpt vm q → RefsIn (.Boolean p vm) q
  | enumNested (p : String) (vm : Option VMList) (q : ValueMappingKind) :
      RefsInOpt vm q → RefsIn (.Enum p vm) q
  | otherArgs (kind : String) (args : VMList) (q : ValueMappingKind) :
      RefsInList args q → RefsIn (.other kind args) q

/-- Reference inside an optional value mapping (absent maps nothing). -/
inductive RefsInOpt : Option VMList → ValueMappingKind → Prop where
  | present (l : VMList) (q : ValueMappingKind) : RefsInList l q → RefsInOpt (some l) q

/-- Reference inside the entries of a walked object: through an entry key
literally named `figmaPropName` (whose value is referenced), or deeper
inside any entry value. -/
inductive RefsInList : VMList → ValueMappingKind → Prop where
  | keyNamed (v : ValueMappingKind) (rest : VMList) :
      RefsInList (.cons "figmaPropName" v rest) v
  | head (k : String) (v : ValueMappingKind) (rest : VMList) (q : ValueMappingKind) :
      RefsInKind v q → RefsInList (.cons k v rest) q
  | tail (k : String) (v : ValueMappingKind) (rest : VMList) (q : ValueMappingKind) :
      RefsInList rest q → RefsInList (.cons k v rest) q

/-- Reference inside one entry value: only through a nested intrinsic. -/
inductive RefsInKind : ValueMappingKind → ValueMappingKind → Prop where
  | nested (i : Intrinsic) (q : ValueMappingKind) : RefsIn i q → RefsInKind (.nested i) q

end

mutual

/-- The recursive walk collects exactly the deep `figmaPropName` values of
an intrinsic. -/
theorem mem_propsInIntrinsic :
    ∀ (i : Intrinsic) (q : ValueMappingKind), q ∈ propsInIntrinsic i ↔ RefsIn i q
  | .String p, q => by
      simp only [propsInIntrinsic, List.mem_singleton]
      exact ⟨fun h => h ▸ .stringProp p, fun h => by cases h; rfl⟩
  | .Boolean p vm, q => by
      simp only [propsInIntrinsic, List.mem_cons]
      constructor
      · rintro (rfl | h)
        · exact .booleanProp p vm
        · exact .booleanNested p vm q ((mem_propsInVMOpt vm q).1 h)
      · intro h
        cases h with
        | booleanProp => exact Or.inl rfl
        | booleanNested _ _ _ hvm => exact Or.inr ((mem_propsInVMOpt vm q).2 hvm)
  | .Enum p vm, q => by
      simp only [propsInIntrinsic, List.mem_cons]
      constructor
      · rintro (rfl | h)
        · exact .enumProp p vm
        · exact .enumNested p vm q ((mem_propsInVMOpt vm q).1 h)
      · intro h
        cases h with
        | enumProp => exact Or.inl rfl
        | enumNested _ _ _ hvm => exact Or.inr ((mem_propsInVMOpt vm q).2 hvm)
  | .Instance p, q => by
      simp only [propsInIntrinsic, List.mem_singleton]
      exact ⟨fun h => h ▸ .instanceProp p, fun h => by cases h; rfl⟩
  | .Children layers, q => by
      simp only [propsInIntrinsic, List.not_mem_nil, false_iff]
      intro h; cases h
  | .TextContent layer, q => by
      simp only [propsInIntrinsic, List.not_mem_nil, false_iff]
      intro h; cases h
  | .other k args, q => by
      simp only [propsInIntrinsic]
      exact ⟨fun h => .otherArgs k args q ((mem_propsInVMList args q).1 h),
        fun h => by
          cases h with | otherArgs _ _ _ hl => exact (mem_propsInVMList args q).2 hl⟩

/-- The walk of an optional value mapping. -/
theorem mem_propsInVMOpt :
    ∀ (vm : Option VMList) (q : ValueMappingKind), q ∈ propsInVMOpt vm ↔ RefsInOpt vm q
  | none, q => by
      simp only [propsInVMOpt, List.not_mem_nil, false_iff]
      intro h; cases h
  | some l, q => by
      simp only [propsInVMOpt]
      exact ⟨fun h => .present l q ((mem_propsInVMList l q).1 h),
        fun h => by cases h with | present _ _ hl => exact (mem_propsInVMList l q).2 hl⟩

/-- The walk of the entries of an object: the value of an entry keyed
`figmaPropName` is collected, and every entry value is walked. -/
theorem mem_propsInVMList :
    ∀ (l : VMList) (q : ValueMappingKind), q ∈ propsInVMList l ↔ RefsInList l q
  | .nil, q => by
      simp only [propsInVMList, List.not_mem_nil, false_iff]
      intro h; cases h
  | .cons k v rest, q => by
      by_cases hk : k = "figmaPropName"
      · subst hk
        have hrw : propsInVMList (.cons "figmaPropName" v rest) =
            v :: (propsInVMKind v ++ propsInVMList rest) := by
          simp [propsInVMList]
        rw [hrw]
        simp only [List.mem_cons, List.mem_append]
        constructor
        · rintro (rfl | h | h)
          · exact .keyNamed q rest
          · exact .head _ v rest q ((mem_propsInVMKind v q).1 h)
          · exact .tail _ v rest q ((mem_propsInVMList rest q).1 h)
        · intro h
          cases h with
          | keyNamed => exact Or.inl rfl
          | head _ _ _ _ hv => exact Or.inr (Or.inl ((mem_propsInVMKind v q).2 hv))
          | tail _ _ _ _ hr => exact Or.inr (Or.inr ((mem_propsInVMList rest q).2 hr))
      · simp only [propsInVMList, if_neg hk, List.nil_append, List.mem_append]
        constructor
        · rintro (h | h)
          · exact .head k v rest q ((mem_propsInVMKind v q).1 h)
          · exact .tail k v rest q ((mem_propsInVMList rest q).1 h)
        · intro h
          cases h with
          | keyNamed => exact absurd rfl hk
          | head _ _ _ _ hv => exact Or.inl ((mem_propsInVMKind v q).2 hv)
          | tail _ _ _ _ hr => exact Or.inr ((mem_propsInVMList rest q).2 hr)

/-- The walk of one entry value. -/
theorem mem_propsInVMKind :
    ∀ (v q : ValueMappingKind), q ∈ propsInVMKind v ↔ RefsInKind v q
  | .str _, q => by
      simp only [propsInVMKind, List.not_mem_nil, false_iff]
      intro h; cases h
  | .num _, q => by
      simp only [propsInVMKind, List.not_mem_nil, false_iff]
      intro h; cases h
  | .bool _, q => by
      simp only [propsInVMKind, List.not_mem_nil, false_iff]
      intro h; cases h
  | .undef, q => by
      simp only [propsInVMKind, List.not_mem_nil, false_iff]
      intro h; cases h
  | .nested i, q => by
      simp only [propsInVMKind]
      exact ⟨fun h => .nested i q ((mem_propsInIntrinsic i q).1 h),
        fun h => by cases h with | nested _ _ hi => exact (mem_propsInIntrinsic i q).2 hi⟩

end

/-- C10.  Unmapped detection compares the raw component key verbatim with
the collected `figmaPropName` values — no normalization: a single
component property yields a suggested declaration exactly when its raw key
is literally absent from the used set (and its type is supported); a
mapping referencing the normalized name `Text` leaves the suffixed key
`Text#1:2` unmapped, while a property name collected from a value-mapping
entry keyed `figmaPropName` is treated as used. -/
theorem unmapped_uses_verbatim_names :
    (∀ (camel : String → String) (pm : PropMapping) (n : String)
        (d : ComponentPropertyDefinition),
      unmappedPropsList camel [(n, d)] pm ≠ [] ↔
        (usedSetHas pm n = false ∧ isSupportedPropType d.type = true)) ∧
    getSetOfAllPropsReferencedInPropMapping [("label", .String "Text")] =
      [.str "Text"] ∧
    unmappedPropsList (fun s => s) [("Text#1:2", ⟨.TEXT, none⟩)]
      [("label", .String "Text")] = ["\"Text\": figma.string(\x27Text\x27)"] ∧
    unmappedPropsList (fun s => s) [("bar", ⟨.BOOLEAN, none⟩)]
      [("x", .Enum "P" (some (.cons "figmaPropName" (.str "bar") .nil)))] = [] := by
  refine ⟨fun camel pm n d => ?_, rfl, by decide, by decide⟩
  by_cases hc : usedSetHas pm n = true
  · simp [unmappedPropsList, hc]
  · simp only [Bool.not_eq_true] at hc
    cases hm : generateSinglePropMappingFromFigmaProp camel n d with
    | none =>
        have hs := singleMapping_isSome camel n d
        rw [hm] at hs
        simp only [Option.isSome_none] at hs
        simp [unmappedPropsList, hc, hm, hs.symm]
    | some val =>
        have hs := singleMapping_isSome camel n d
        rw [hm] at hs
        simp only [Option.isSome_some] at hs
        simp [unmappedPropsList, hc, hm, hs.symm]

/-- Whether the path ends in `.jsx` or `.tsx` — the extensions the regex
`/\.(jsx|tsx)$/` of `formatImportPath` matches. -/
def endsWithScriptExt (s : String) : Bool :=
  match s.data.reverse with
  | 'x' :: 's' :: 'j' :: '.' :: _ => true
  | 'x' :: 's' :: 't' :: '.' :: _ => true
  | _ => false

/-- Paths without a script extension are unchanged by the strip step. -/
theorem stripScriptExt_of_no_ext (s : String) (h : endsWithScriptExt s = false) :
    stripScriptExt s = s := by
  unfold stripScriptExt
  unfold endsWithScriptExt at h
  split
  · rename_i heq; rw [heq] at h; simp at h
  · rename_i heq; rw [heq] at h; simp at h
  · rfl

/-- The strip step removes exactly a trailing `.jsx`/`.tsx`. -/
theorem stripScriptExt_of_ext (t : List Char) :
    stripScriptExt ⟨t ++ ['.', 'j', 's', 'x']⟩ = ⟨t⟩ ∧
    stripScriptExt ⟨t ++ ['.', 't', 's', 'x']⟩ = ⟨t⟩ := by
  constructor <;> simp [stripScriptExt, List.reverse_append]

/-- C8.  With no `sourceFilepath` the import path is `./` plus the
normalized component name; with one, it is the collaborator-computed
relative path from the destination's directory to the source, with every
platform separator mapped to `/`, a `./` prefix added when the path does
not already start with `.`, and a trailing `.jsx`/`.tsx` script extension
stripped. -/
theorem importPath_resolution :
    (∀ (cb : Collaborators) (dest name : String),
      getImportsPath cb dest none name = "./" ++ name) ∧
    (∀ (cb : Collaborators) (dest name src : String), src ≠ "" →
      getImportsPath cb dest (some src) name =
        stripScriptExt (dotPrefixed (replaceSep cb.sep (cb.relative (cb.dirname dest) src)))) ∧
    (∀ (sep : Char) (s : String),
      (replaceSep sep s).data = s.data.map (fun c => if c = sep then '/' else c)) ∧
    (∀ s : String,
      (s.data.head? = some '.' → dotPrefixed s = s) ∧
      (s.data.head? ≠ some '.' → dotPrefixed s = "./" ++ s)) ∧
    (∀ t : List Char,
      stripScriptExt ⟨t ++ ['.', 'j', 's', 'x']⟩ = ⟨t⟩ ∧
      stripScriptExt ⟨t ++ ['.', 't', 's', 'x']⟩ = ⟨t⟩) ∧
    (∀ s : String, endsWithScriptExt s = false → stripScriptExt s = s) := by
  refine ⟨fun cb dest name => rfl,
    fun cb dest name src h => by simp [getImportsPath, formatImportPath, h],
    fun sep s => rfl,
    fun s => ⟨fun h => by simp [dotPrefixed, h], fun h => by simp [dotPrefixed, h]⟩,
    stripScriptExt_of_ext, stripScriptExt_of_no_ext⟩

/-- Witness for C8 at a concrete payload with and without a source path. -/
theorem importPath_resolution_witness :
    ("src/Button.tsx" ≠ "") ∧
    getImportsPath
        ⟨id, id, id, id, '/', fun _ _ => "sub/Button.tsx", fun _ => "out"⟩
        "out/Button.figma.tsx" (some "src/Button.tsx") "Button" =
      stripScriptExt (dotPrefixed (replaceSep '/' "sub/Button.tsx")) :=
  ⟨by decide,
    importPath_resolution.2.1
      ⟨id, id, id, id, '/', fun _ _ => "sub/Button.tsx", fun _ => "out"⟩
      "out/Button.figma.tsx" "Button" "src/Button.tsx" (by decide)⟩

/-- C9, counterexample.  A payload with `sourceExport = "Foo"` (a named
export) but no `sourceFilepath`: the claim says the named export is used
verbatim, but the code's conditional `sourceFilepath && sourceExport`
falls back to the component's normalized name `Bar`. -/
theorem namedExport_ignored_without_sourceFilepath :
    importNameOf ⟨id, id, id, id, '/', fun _ _ => "", fun _ => ""⟩
        ⟨⟨"Bar", "url", []⟩, none, none, none, some "Foo", none⟩ = "Bar" ∧
    importNameOf ⟨id, id, id, id, '/', fun _ _ => "", fun _ => ""⟩
        ⟨⟨"Bar", "url", []⟩, none, none, none, some "Foo", none⟩ ≠ "Foo" := by
  exact ⟨rfl, by decide⟩

/-- C9, amended.  The imported identifier follows the claimed
`sourceExport` rules only when both `sourceFilepath` and `sourceExport`
are given (truthy): default export derives the identifier from the base
filename, a named export is used verbatim; when either attribute is
missing or empty the identifier is the component's normalized name.  The
default-import vs. named-import syntax is selected by whether
`sourceExport` equals `default` alone. -/
theorem importName_resolution (cb : Collaborators) (payload : CreateRequestPayload) :
    (∀ src ex : String, payload.sourceFilepath = some src →
      payload.sourceExport = some ex → src ≠ "" → ex ≠ "" →
      importNameOf cb payload =
        (if ex = "default" then cb.normalizeComponentName (sourceFilenameOf cb payload)
         else ex)) ∧
    (strTruthy payload.sourceFilepath = false ∨ strTruthy payload.sourceExport = false →
      importNameOf cb payload = payload.component.normalizedName) ∧
    importClauseOf cb payload =
      (if payload.sourceExport = some "default" then importNameOf cb payload
       else "\x7b " ++ importNameOf cb payload ++ " \x7d") := by
  refine ⟨fun src ex hf he hs hx => ?_, fun h => ?_, rfl⟩
  · simp [importNameOf, hf, he, hs, hx]
  · cases hf : payload.sourceFilepath with
    | none => simp [importNameOf, hf]
    | some src =>
        cases he : payload.sourceExport with
        | none => simp [importNameOf, hf, he]
        | some ex =>
            rw [hf, he] at h
            simp [strTruthy] at h
            rcases h with h | h <;> simp [importNameOf, hf, he, h]

/-- Witness for the amended C9: a named export with a source path is used
verbatim; an absent source path falls back to the normalized name. -/
theorem importName_resolution_witness :
    ((some "src/B.tsx" : Option String) = some "src/B.tsx" ∧
      (some "Exported" : Option String) = some "Exported" ∧
      "src/B.tsx" ≠ "" ∧ "Exported" ≠ "") ∧
    importNameOf ⟨id, id, id, id, '/', fun _ _ => "", fun _ => ""⟩
        ⟨⟨"Bar", "url", []⟩, none, none, some "src/B.tsx", some "Exported", none⟩ =
      (if "Exported" = "default" then
        (⟨id, id, id, id, '/', fun _ _ => "", fun _ => ""⟩ :
          Collaborators).normalizeComponentName
          (sourceFilenameOf ⟨id, id, id, id, '/', fun _ _ => "", fun _ => ""⟩
            ⟨⟨"Bar", "url", []⟩, none, none, some "src/B.tsx", some "Exported", none⟩)
       else "Exported") :=
  ⟨⟨rfl, rfl, by decide, by decide⟩,
    (importName_resolution ⟨id, id, id, id, '/', fun _ _ => "", fun _ => ""⟩
      ⟨⟨"Bar", "url", []⟩, none, none, some "src/B.tsx", some "Exported", none⟩).1
      "src/B.tsx" "Exported" rfl rfl (by decide) (by decide)⟩

/-- A fully supported mapping renders all of its declarations. -/
theorem mappedPropsList_ok (pm : PropMapping)
    (h : pm.all (fun ki => supportedDeep ki.2) = true) :
    ∃ l, mappedPropsList pm = Except.ok l := by
  induction pm with
  | nil => exact ⟨[], rfl⟩
  | cons ki rest ih =>
      obtain ⟨n, i⟩ := ki
      simp only [List.all_cons, Bool.and_eq_true] at h
      obtain ⟨e, he⟩ := genIntrinsic_ok_of_supported i h.1
      obtain ⟨l, hl⟩ := ih h.2
      exact ⟨if e = "" then l else ("\"" ++ n ++ "\": " ++ e) :: l,
        by simp only [mappedPropsList, he, hl, ok_bind]⟩

/-- The props block always renders for a payload whose mapping uses only
supported intrinsic kinds. -/
theorem propsTextOf_ok (cb : Collaborators) (payload : CreateRequestPayload)
    (hm : payloadMappingSupported payload = true) :
    ∃ s, propsTextOf cb payload = Except.ok s := by
  by_cases hp : hasPropMapping payload
  · cases hpm : payload.propMapping with
    | none => rw [hasPropMapping, hpm] at hp; simp at hp
    | some pm =>
        rw [payloadMappingSupported, hpm] at hm
        obtain ⟨l, hl⟩ := mappedPropsList_ok pm hm
        simp only [propsTextOf, hp, if_true, hpm, Option.getD_some,
          generatePropsFromMapping, hl, ok_bind]
        exact ⟨_, rfl⟩
  · exact ⟨generateProps cb.camel payload.component.componentPropertyDefinitions,
      by simp [propsTextOf, hp]⟩

/-- The ERROR message reported for an existing destination. -/
def conflictMessage (filePath : String) : Message :=
  { message := "File " ++ filePath ++ " already exists, skipping creation"
    level := "ERROR" }

/-- The filesystem state after a successful write. -/
def writtenFs (cb : Collaborators) (fs : FileSystem) (payload : CreateRequestPayload)
    (content : String) : FileSystem :=
  { files := (resolvedFilePath cb payload, content) :: fs.files
    dirs := cb.dirname (resolvedFilePath cb payload) :: fs.dirs }

/-- The response/state behaviour C1 claims of `createReactCodeConnect`:
formatting succeeds with some content; the conflict message literally
contains the destination path; on an existing destination nothing is
written and the response is the single ERROR message; on a fresh
destination the file is written with the formatted content, the response
is the single created file with no messages, and a second invocation
against the updated filesystem reports the conflict and leaves the
filesystem (hence the written contents) unchanged. -/
def conflictGuardSpec (cb : Collaborators) (fs : FileSystem)
    (payload : CreateRequestPayload) : Prop :=
  ∃ content : String,
    formattedContent cb payload = Except.ok content ∧
    (∃ pre post : String,
      (conflictMessage (resolvedFilePath cb payload)).message =
        pre ++ resolvedFilePath cb payload ++ post) ∧
    (existsSync fs (resolvedFilePath cb payload) = true →
      createReactCodeConnect cb fs payload =
        Except.ok (⟨[], [conflictMessage (resolvedFilePath cb payload)]⟩, fs)) ∧
    (existsSync fs (resolvedFilePath cb payload) = false →
      createReactCodeConnect cb fs payload =
        Except.ok (⟨[{ filePath := resolvedFilePath cb payload }], []⟩,
          writtenFs cb fs payload content) ∧
      createReactCodeConnect cb (writtenFs cb fs payload content) payload =
        Except.ok (⟨[], [conflictMessage (resolvedFilePath cb payload)]⟩,
          writtenFs cb fs payload content))

/-- C1.  For every payload whose prop mapping is built from supported
intrinsic kinds (the only shape the spec's payload data model admits),
`createReactCodeConnect` obeys the existence guard: no write and exactly
one ERROR message naming the destination when it already exists, otherwise
a single created file with the formatted contents and no messages, and a
repeat invocation then reports the conflict with the filesystem
unchanged. -/
theorem createReactCodeConnect_conflict_guard (cb : Collaborators) (fs : FileSystem)
    (payload : CreateRequestPayload) (hm : payloadMappingSupported payload = true) :
    conflictGuardSpec cb fs payload := by
  obtain ⟨s, hs⟩ := propsTextOf_ok cb payload hm
  have hc : ∃ content, formattedContent cb payload = Except.ok content := by
    simp only [formattedContent, codeConnectTemplate, hs, ok_bind]
    exact ⟨_, rfl⟩
  obtain ⟨content, hcontent⟩ := hc
  refine ⟨content, hcontent,
    ⟨"File ", " already exists, skipping creation", rfl⟩, ?_, ?_⟩
  · intro hex
    simp [createReactCodeConnect, hcontent, hex, conflictMessage]
  · intro hex
    constructor
    · simp [createReactCodeConnect, hcontent, hex, writtenFs]
    · simp [createReactCodeConnect, hcontent, existsSync, conflictMessage, writtenFs]

/-- Witness for C1: a fresh filesystem and a boolean-property component
payload without an explicit mapping. -/
theorem createReactCodeConnect_conflict_guard_witness :
    payloadMappingSupported
        ⟨⟨"Button", "url", [("Disabled", ⟨.BOOLEAN, none⟩)]⟩,
          some "out/Button.figma.tsx", none, none, none, none⟩ = true ∧
    conflictGuardSpec ⟨id, id, id, id, '/', fun _ _ => "x", fun _ => "out"⟩ ⟨[], []⟩
      ⟨⟨"Button", "url", [("Disabled", ⟨.BOOLEAN, none⟩)]⟩,
        some "out/Button.figma.tsx", none, none, none, none⟩ :=
  ⟨rfl, createReactCodeConnect_conflict_guard
    ⟨id, id, id, id, '/', fun _ _ => "x", fun _ => "out"⟩ ⟨[], []⟩
    ⟨⟨"Button", "url", [("Disabled", ⟨.BOOLEAN, none⟩)]⟩,
      some "out/Button.figma.tsx", none, none, none, none⟩ rfl⟩

end CodeConnect
